import Mathlib

/-!
Verification of the genesis accounts-configuration component
(`node/src/types/chainspec/accounts_config.rs`): the entity model
(`AccountConfig`, `DelegatorConfig`, `AccountsConfig`), their canonical
byte codec, the loader, and the genesis adapter.

The composite codec instances are translated directly from the source.
The primitive value types (`PublicKey`, `Motes`) and the sequence codec
live outside the visible source and are modelled from the spec (§3, §4.1):
opaque fixed-size values encode as their fixed-width representation, and a
sequence encodes as a fixed-width length prefix followed by the elements'
encodings in order.
-/

/-- Bytes of the wire format, represented as natural numbers below 256. -/
abbrev Byte := Fin 256

/-- Modelled from the spec: the fixed-width big-endian byte representation of
an unsigned integer (§4.1 scalar rule); the concrete integer primitive of the
external codec library is not part of the visible source. -/
def natToBytesBE : Nat → Nat → List Byte
  | 0, _ => []
  | w + 1, n => natToBytesBE w (n / 256) ++ [⟨n % 256, Nat.mod_lt _ (by norm_num)⟩]

/-- Modelled from the spec: reading back a big-endian unsigned integer from
its byte representation. -/
def bytesToNatBE (l : List Byte) : Nat :=
  l.foldl (fun acc b => acc * 256 + b.val) 0

theorem natToBytesBE_length (w n : Nat) : (natToBytesBE w n).length = w := by
  induction w generalizing n with
  | zero => simp [natToBytesBE]
  | succ w ih => simp [natToBytesBE, ih]

theorem bytesToNatBE_append_singleton (l : List Byte) (b : Byte) :
    bytesToNatBE (l ++ [b]) = bytesToNatBE l * 256 + b.val := by
  simp [bytesToNatBE, List.foldl_append]

theorem bytesToNatBE_natToBytesBE (w n : Nat) (h : n < 256 ^ w) :
    bytesToNatBE (natToBytesBE w n) = n := by
  induction w generalizing n with
  | zero =>
    have : n = 0 := by simpa using h
    simp [natToBytesBE, bytesToNatBE, this]
  | succ w ih =>
    have hdiv : n / 256 < 256 ^ w := by
      rw [Nat.div_lt_iff_lt_mul (by norm_num : 0 < 256)]
      calc n < 256 ^ (w + 1) := h
        _ = 256 ^ w * 256 := by ring
    rw [natToBytesBE, bytesToNatBE_append_singleton, ih _ hdiv]
    show n / 256 * 256 + n % 256 = n
    omega

theorem bytesToNatBE_lt (l : List Byte) : bytesToNatBE l < 256 ^ l.length := by
  induction l using List.reverseRecOn with
  | nil => simp [bytesToNatBE]
  | append_singleton l b ih =>
    rw [bytesToNatBE_append_singleton]
    have hb : b.val < 256 := b.isLt
    have hpow : 256 ^ (l ++ [b]).length = 256 ^ l.length * 256 := by
      simp [List.length_append, pow_succ]
    omega

/-- Modelled from the spec: an opaque fixed-size public-key identity (§3);
its canonical encoding is its 32-byte fixed-width representation (§4.1
scalar rule). -/
def PublicKey := { l : List Byte // l.length = 32 }

instance : DecidableEq PublicKey :=
  fun a b => decidable_of_iff (a.val = b.val) Subtype.ext_iff.symm

/-- Modelled from the spec: encoding of a public key is its fixed-width
representation. -/
def PublicKey.to_bytes (pk : PublicKey) : List Byte := pk.val

/-- Modelled from the spec: the declared byte size of a public key encoding. -/
def PublicKey.serialized_length (_ : PublicKey) : Nat := 32

/-- Modelled from the spec: decoding a public key consumes exactly its fixed
width and fails on a shorter input. -/
def PublicKey.from_bytes (bs : List Byte) : Option (PublicKey × List Byte) :=
  if h : 32 ≤ bs.length then
    some (⟨bs.take 32, by rw [List.length_take]; omega⟩, bs.drop 32)
  else
    none

theorem publicKey_roundtrip (pk : PublicKey) (r : List Byte) :
    PublicKey.from_bytes (PublicKey.to_bytes pk ++ r) = some (pk, r) := by
  have h32 : (PublicKey.to_bytes pk).length = 32 := pk.property
  have hle : 32 ≤ (PublicKey.to_bytes pk ++ r).length := by
    rw [List.length_append, h32]; omega
  rw [PublicKey.from_bytes, dif_pos hle]
  have hdrop : (PublicKey.to_bytes pk ++ r).drop 32 = r := List.drop_left' h32
  have htake : (PublicKey.to_bytes pk ++ r).take 32 = PublicKey.to_bytes pk :=
    List.take_left' h32
  refine congrArg some (Prod.ext ?_ hdrop)
  exact Subtype.ext htake

theorem publicKey_from_bytes_length (bs : List Byte) (pk : PublicKey) (r : List Byte)
    (h : PublicKey.from_bytes bs = some (pk, r)) : bs.length = 32 + r.length := by
  rw [PublicKey.from_bytes] at h
  split at h
  · rename_i hle
    have hr : r = bs.drop 32 := (congrArg Prod.snd (Option.some.inj h)).symm
    rw [hr, List.length_drop]
    omega
  · exact absurd h (by simp)

/-- Modelled from the spec: an opaque non-negative fixed-point token amount
("motes", §3), carried as an unsigned integer below its fixed-width bound. -/
structure Motes where
  value : Fin (256 ^ 8)
deriving DecidableEq

/-- Checks whether an amount is the zero amount (the external numeric
library's zero test). -/
def Motes.is_zero (m : Motes) : Bool := m.value.val == 0

/-- Modelled from the spec: encoding of an amount is its 8-byte fixed-width
big-endian representation (§4.1 scalar rule). -/
def Motes.to_bytes (m : Motes) : List Byte := natToBytesBE 8 m.value.val

/-- Modelled from the spec: the declared byte size of an amount encoding. -/
def Motes.serialized_length (_ : Motes) : Nat := 8

/-- Modelled from the spec: decoding an amount consumes exactly its fixed
width and fails on a shorter input. -/
def Motes.from_bytes (bs : List Byte) : Option (Motes × List Byte) :=
  if h : 8 ≤ bs.length then
    some (⟨⟨bytesToNatBE (bs.take 8), by
      have hlt := bytesToNatBE_lt (bs.take 8)
      rwa [List.length_take, Nat.min_eq_left h] at hlt⟩⟩, bs.drop 8)
  else
    none

theorem motes_to_bytes_length (m : Motes) : (Motes.to_bytes m).length = 8 :=
  natToBytesBE_length 8 m.value.val

theorem motes_roundtrip (m : Motes) (r : List Byte) :
    Motes.from_bytes (Motes.to_bytes m ++ r) = some (m, r) := by
  have h8 : (Motes.to_bytes m).length = 8 := motes_to_bytes_length m
  have hle : 8 ≤ (Motes.to_bytes m ++ r).length := by
    rw [List.length_append, h8]; omega
  rw [Motes.from_bytes, dif_pos hle]
  have hdrop : (Motes.to_bytes m ++ r).drop 8 = r := List.drop_left' h8
  have htake : (Motes.to_bytes m ++ r).take 8 = Motes.to_bytes m :=
    List.take_left' h8
  refine congrArg some (Prod.ext ?_ hdrop)
  show Motes.mk ⟨bytesToNatBE ((Motes.to_bytes m ++ r).take 8), _⟩ = m
  have hval : bytesToNatBE ((Motes.to_bytes m ++ r).take 8) = m.value.val := by
    rw [htake]
    exact bytesToNatBE_natToBytesBE 8 m.value.val m.value.isLt
  cases m with
  | mk v => exact congrArg Motes.mk (Fin.ext hval)

theorem motes_from_bytes_length (bs : List Byte) (m : Motes) (r : List Byte)
    (h : Motes.from_bytes bs = some (m, r)) : bs.length = 8 + r.length := by
  rw [Motes.from_bytes] at h
  split at h
  · rename_i hle
    have hr : r = bs.drop 8 := (congrArg Prod.snd (Option.some.inj h)).symm
    rw [hr, List.length_drop]
    omega
  · exact absurd h (by simp)

/-- Modelled from the spec: a sequence encodes as a fixed-width (4-byte)
unsigned length followed by the concatenation of each element's encoding in
sequence order (§4.1 sequence rule). -/
def seqToBytes {α : Type} (enc : α → List Byte) (xs : List α) : List Byte :=
  natToBytesBE 4 xs.length ++ (xs.map enc).flatten

/-- Modelled from the spec: the declared byte size of a sequence encoding is
the length-field width plus the sum of the elements' declared sizes. -/
def seqSerializedLength {α : Type} (slen : α → Nat) (xs : List α) : Nat :=
  4 + (xs.map slen).sum

/-- Modelled from the spec: decoding a known number of elements in order,
threading the remainder through each step. -/
def seqFromBytesN {α : Type} (dec : List Byte → Option (α × List Byte)) :
    Nat → List Byte → Option (List α × List Byte)
  | 0, bs => some ([], bs)
  | n + 1, bs =>
    match dec bs with
    | none => none
    | some (x, r) =>
      match seqFromBytesN dec n r with
      | none => none
      | some (xs, r2) => some (x :: xs, r2)

/-- Modelled from the spec: decoding a sequence reads the fixed-width length,
then decodes that many elements in order and returns the final remainder. -/
def seqFromBytes {α : Type} (dec : List Byte → Option (α × List Byte))
    (bs : List Byte) : Option (List α × List Byte) :=
  if _h : 4 ≤ bs.length then
    seqFromBytesN dec (bytesToNatBE (bs.take 4)) (bs.drop 4)
  else
    none

theorem seqToBytes_length {α : Type} (enc : α → List Byte) (slen : α → Nat)
    (hl : ∀ x, (enc x).length = slen x) (xs : List α) :
    (seqToBytes enc xs).length = seqSerializedLength slen xs := by
  have hfun : (fun x => (enc x).length) = slen := funext hl
  simp [seqToBytes, seqSerializedLength, natToBytesBE_length, List.length_flatten,
    List.map_map, Function.comp_def, hfun]

theorem seqFromBytesN_spec {α : Type} (enc : α → List Byte)
    (dec : List Byte → Option (α × List Byte))
    (hdec : ∀ x r, dec (enc x ++ r) = some (x, r)) :
    ∀ (xs : List α) (r : List Byte),
      seqFromBytesN dec xs.length ((xs.map enc).flatten ++ r) = some (xs, r) := by
  intro xs
  induction xs with
  | nil => intro r; simp [seqFromBytesN]
  | cons x xs ih =>
    intro r
    simp only [List.map_cons, List.flatten_cons, List.append_assoc, List.length_cons,
      seqFromBytesN, hdec, ih]

theorem seqFromBytes_seqToBytes {α : Type} (enc : α → List Byte)
    (dec : List Byte → Option (α × List Byte))
    (hdec : ∀ x r, dec (enc x ++ r) = some (x, r)) (xs : List α) (r : List Byte)
    (hlen : xs.length < 256 ^ 4) :
    seqFromBytes dec (seqToBytes enc xs ++ r) = some (xs, r) := by
  have hlb : (natToBytesBE 4 xs.length).length = 4 := natToBytesBE_length 4 _
  have hassoc : seqToBytes enc xs ++ r
      = natToBytesBE 4 xs.length ++ ((xs.map enc).flatten ++ r) := by
    simp [seqToBytes, List.append_assoc]
  have hle : 4 ≤ (natToBytesBE 4 xs.length ++ ((xs.map enc).flatten ++ r)).length := by
    rw [List.length_append, hlb]; omega
  rw [seqFromBytes, hassoc, dif_pos hle, List.take_left' hlb, List.drop_left' hlb,
    bytesToNatBE_natToBytesBE 4 xs.length hlen]
  exact seqFromBytesN_spec enc dec hdec xs r

/-- One genesis account entry: identity, starting balance, bonded amount
(`AccountConfig` in `accounts_config.rs`). -/
structure AccountConfig where
  public_key : PublicKey
  balance : Motes
  bonded_amount : Motes
deriving DecidableEq

/-- Constructor `AccountConfig::new`, storing the three fields as given. -/
def AccountConfig.new (public_key : PublicKey) (balance : Motes)
    (bonded_amount : Motes) : AccountConfig :=
  { public_key, balance, bonded_amount }

/-- Derived accessor `AccountConfig::is_genesis_validator`: the negation of
the bonded amount's zero test. -/
def AccountConfig.is_genesis_validator (c : AccountConfig) : Bool :=
  !(Motes.is_zero c.bonded_amount)

/-- Encoding `AccountConfig::to_bytes`: an initially empty buffer extended by
the encodings of `public_key`, `balance` and `bonded_amount`, in that order. -/
def AccountConfig.to_bytes (c : AccountConfig) : List Byte :=
  ((([] : List Byte) ++ PublicKey.to_bytes c.public_key)
      ++ Motes.to_bytes c.balance)
    ++ Motes.to_bytes c.bonded_amount

/-- Declared size `AccountConfig::serialized_length`: the sum of the three
fields' declared sizes. -/
def AccountConfig.serialized_length (c : AccountConfig) : Nat :=
  PublicKey.serialized_length c.public_key
    + Motes.serialized_length c.balance
    + Motes.serialized_length c.bonded_amount

/-- Decoding `AccountConfig::from_bytes`: the three fields are read in
declaration order, threading the remainder forward. -/
def AccountConfig.from_bytes (bs : List Byte) : Option (AccountConfig × List Byte) :=
  match PublicKey.from_bytes bs with
  | none => none
  | some (public_key, remainder) =>
    match Motes.from_bytes remainder with
    | none => none
    | some (balance, remainder) =>
      match Motes.from_bytes remainder with
      | none => none
      | some (bonded_amount, remainder) =>
        some ({ public_key, balance, bonded_amount }, remainder)

/-- One delegation entry (`DelegatorConfig` in `accounts_config.rs`). -/
structure DelegatorConfig where
  validator_public_key : PublicKey
  delegator_public_key : PublicKey
  balance : Motes
  delegated_amount : Motes
deriving DecidableEq

/-- Constructor `DelegatorConfig::new`, storing the four fields as given. -/
def DelegatorConfig.new (validator_public_key : PublicKey)
    (delegator_public_key : PublicKey) (balance : Motes)
    (delegated_amount : Motes) : DelegatorConfig :=
  { validator_public_key, delegator_public_key, balance, delegated_amount }

/-- Encoding `DelegatorConfig::to_bytes`: an initially empty buffer extended
by the four fields' encodings in declaration order. -/
def DelegatorConfig.to_bytes (d : DelegatorConfig) : List Byte :=
  (((([] : List Byte) ++ PublicKey.to_bytes d.validator_public_key)
        ++ PublicKey.to_bytes d.delegator_public_key)
      ++ Motes.to_bytes d.balance)
    ++ Motes.to_bytes d.delegated_amount

/-- Declared size `DelegatorConfig::serialized_length`. -/
def DelegatorConfig.serialized_length (d : DelegatorConfig) : Nat :=
  PublicKey.serialized_length d.validator_public_key
    + PublicKey.serialized_length d.delegator_public_key
    + Motes.serialized_length d.balance
    + Motes.serialized_length d.delegated_amount

/-- Decoding `DelegatorConfig::from_bytes`: the four fields are read in
declaration order, threading the remainder forward. -/
def DelegatorConfig.from_bytes (bs : List Byte) :
    Option (DelegatorConfig × List Byte) :=
  match PublicKey.from_bytes bs with
  | none => none
  | some (validator_public_key, remainder) =>
    match PublicKey.from_bytes remainder with
    | none => none
    | some (delegator_public_key, remainder) =>
      match Motes.from_bytes remainder with
      | none => none
      | some (balance, remainder) =>
        match Motes.from_bytes remainder with
        | none => none
        | some (delegated_amount, remainder) =>
          some ({ validator_public_key, delegator_public_key, balance,
                  delegated_amount }, remainder)

/-- Aggregate of accounts and delegators (`AccountsConfig` in
`accounts_config.rs`). -/
structure AccountsConfig where
  accounts : List AccountConfig
  delegators : List DelegatorConfig
deriving DecidableEq

/-- Constructor `AccountsConfig::new`, storing the two sequences as given. -/
def AccountsConfig.new (accounts : List AccountConfig)
    (delegators : List DelegatorConfig) : AccountsConfig :=
  { accounts, delegators }

/-- Encoding `AccountsConfig::to_bytes`: an initially empty buffer extended
by the encoding of the accounts sequence, then the delegators sequence. -/
def AccountsConfig.to_bytes (c : AccountsConfig) : List Byte :=
  (([] : List Byte) ++ seqToBytes AccountConfig.to_bytes c.accounts)
    ++ seqToBytes DelegatorConfig.to_bytes c.delegators

/-- Declared size `AccountsConfig::serialized_length`: the sum of the two
sequences' declared sizes. -/
def AccountsConfig.serialized_length (c : AccountsConfig) : Nat :=
  seqSerializedLength AccountConfig.serialized_length c.accounts
    + seqSerializedLength DelegatorConfig.serialized_length c.delegators

/-- Decoding `AccountsConfig::from_bytes`: the two sequences are read in
order, threading the remainder, and reassembled through `AccountsConfig.new`. -/
def AccountsConfig.from_bytes (bs : List Byte) :
    Option (AccountsConfig × List Byte) :=
  match seqFromBytes AccountConfig.from_bytes bs with
  | none => none
  | some (accounts, remainder) =>
    match seqFromBytes DelegatorConfig.from_bytes remainder with
    | none => none
    | some (delegators, remainder) =>
      some (AccountsConfig.new accounts delegators, remainder)

theorem accountConfig_to_bytes_append (c : AccountConfig) (r : List Byte) :
    AccountConfig.to_bytes c ++ r
      = PublicKey.to_bytes c.public_key
        ++ (Motes.to_bytes c.balance ++ (Motes.to_bytes c.bonded_amount ++ r)) := by
  simp [AccountConfig.to_bytes, List.append_assoc]

theorem accountConfig_roundtrip (c : AccountConfig) (r : List Byte) :
    AccountConfig.from_bytes (AccountConfig.to_bytes c ++ r) = some (c, r) := by
  rw [accountConfig_to_bytes_append]
  simp only [AccountConfig.from_bytes, publicKey_roundtrip,
    motes_roundtrip]

theorem accountConfig_to_bytes_length (c : AccountConfig) :
    (AccountConfig.to_bytes c).length = 48 := by
  simp [AccountConfig.to_bytes, PublicKey.to_bytes, c.public_key.property,
    motes_to_bytes_length]

theorem delegatorConfig_to_bytes_append (d : DelegatorConfig) (r : List Byte) :
    DelegatorConfig.to_bytes d ++ r
      = PublicKey.to_bytes d.validator_public_key
        ++ (PublicKey.to_bytes d.delegator_public_key
          ++ (Motes.to_bytes d.balance ++ (Motes.to_bytes d.delegated_amount ++ r))) := by
  simp [DelegatorConfig.to_bytes, List.append_assoc]

theorem delegatorConfig_roundtrip (d : DelegatorConfig) (r : List Byte) :
    DelegatorConfig.from_bytes (DelegatorConfig.to_bytes d ++ r) = some (d, r) := by
  rw [delegatorConfig_to_bytes_append]
  simp only [DelegatorConfig.from_bytes, publicKey_roundtrip,
    motes_roundtrip]

theorem delegatorConfig_to_bytes_length (d : DelegatorConfig) :
    (DelegatorConfig.to_bytes d).length = 80 := by
  simp [DelegatorConfig.to_bytes, PublicKey.to_bytes,
    d.validator_public_key.property, d.delegator_public_key.property,
    motes_to_bytes_length]

theorem accountsConfig_to_bytes_append (c : AccountsConfig) (r : List Byte) :
    AccountsConfig.to_bytes c ++ r
      = seqToBytes AccountConfig.to_bytes c.accounts
        ++ (seqToBytes DelegatorConfig.to_bytes c.delegators ++ r) := by
  simp [AccountsConfig.to_bytes, List.append_assoc]

theorem accountsConfig_roundtrip (c : AccountsConfig) (r : List Byte)
    (ha : c.accounts.length < 256 ^ 4) (hd : c.delegators.length < 256 ^ 4) :
    AccountsConfig.from_bytes (AccountsConfig.to_bytes c ++ r) = some (c, r) := by
  rw [accountsConfig_to_bytes_append]
  simp only [AccountsConfig.from_bytes,
    seqFromBytes_seqToBytes AccountConfig.to_bytes AccountConfig.from_bytes
      accountConfig_roundtrip c.accounts _ ha,
    seqFromBytes_seqToBytes DelegatorConfig.to_bytes DelegatorConfig.from_bytes
      delegatorConfig_roundtrip c.delegators _ hd]
  rfl

theorem accountConfig_from_bytes_some_length (bs : List Byte) (c : AccountConfig)
    (r : List Byte) (h : AccountConfig.from_bytes bs = some (c, r)) :
    bs.length = 48 + r.length := by
  rw [AccountConfig.from_bytes] at h
  split at h
  · exact absurd h (by simp)
  · rename_i pk rem1 hpk
    split at h
    · exact absurd h (by simp)
    · rename_i bal rem2 hbal
      split at h
      · exact absurd h (by simp)
      · rename_i bon rem3 hbon
        have h1 := publicKey_from_bytes_length bs pk rem1 hpk
        have h2 := motes_from_bytes_length rem1 bal rem2 hbal
        have h3 := motes_from_bytes_length rem2 bon rem3 hbon
        have hr : rem3 = r := congrArg Prod.snd (Option.some.inj h)
        rw [hr] at h3
        omega

/-- Filename constant `CHAINSPEC_ACCOUNTS_FILENAME`. -/
def CHAINSPEC_ACCOUNTS_FILENAME : String := "accounts.toml"

/-- Modelled from the spec: a well-formed parsed source document (§6): a
sequence of account tables, and an optional sequence of delegator tables
(`none` when the delegators section is omitted). -/
structure AccountsToml where
  accounts : List AccountConfig
  delegators : Option (List DelegatorConfig)
deriving DecidableEq

/-- Modelled from the spec: deserializing a well-formed source document into
an `AccountsConfig`, applying the declared default (empty sequence) when the
delegators section is omitted (the serde `#[serde(default)]` attribute on
the `delegators` field). -/
def parseAccountsToml (doc : AccountsToml) : AccountsConfig :=
  { accounts := doc.accounts, delegators := doc.delegators.getD [] }

/-- Modelled from the spec: the content found at a path of the external
source directory: a file whose bytes parse as a well-formed document, a file
whose content is malformed for the schema, or a file that cannot be read. -/
inductive FileContent where
  | wellFormed (doc : AccountsToml)
  | malformed
  | unreadable
deriving DecidableEq

/-- Modelled from the spec: the external directory root, mapping a filename
to the file found there (`none` when no such file is present). -/
structure SourceDir where
  file : String → Option FileContent

/-- Load-failure kinds of `ChainspecAccountsLoadError`: the source file is
unreadable, or its content does not parse as the expected schema. -/
inductive ChainspecAccountsLoadError where
  | unreadable
  | malformed
deriving DecidableEq

/-- Loader `AccountsConfig::from_path` (the `Loadable` instance): when the
accounts file is absent from the directory root, an empty configuration is
returned; otherwise the file is read and parsed, propagating read and parse
failures as load errors. -/
def AccountsConfig.from_path (root : SourceDir) :
    Except ChainspecAccountsLoadError AccountsConfig :=
  match root.file CHAINSPEC_ACCOUNTS_FILENAME with
  | none => Except.ok (AccountsConfig.new [] [])
  | some (FileContent.wellFormed doc) => Except.ok (parseAccountsToml doc)
  | some FileContent.malformed => Except.error ChainspecAccountsLoadError.malformed
  | some FileContent.unreadable => Except.error ChainspecAccountsLoadError.unreadable

/-- Modelled from the spec: the account-hash derived from a public key by
the external pure derivation (`PublicKey::to_account_hash`), carried as an
opaque value determined solely by the key. -/
structure AccountHash where
  digest : List Byte
deriving DecidableEq

/-- Modelled from the spec: the external pure account-hash derivation. -/
def PublicKey.to_account_hash (pk : PublicKey) : AccountHash := ⟨pk.val⟩

/-- Modelled from the spec: a genesis record (§3) consumed by the execution
engine: identity, derived account-hash, balance, bonded amount. -/
structure GenesisAccount where
  public_key : PublicKey
  account_hash : AccountHash
  balance : Motes
  bonded_amount : Motes
deriving DecidableEq

/-- Constructor `GenesisAccount::new` of the external record. -/
def GenesisAccount.new (public_key : PublicKey) (account_hash : AccountHash)
    (balance : Motes) (bonded_amount : Motes) : GenesisAccount :=
  { public_key, account_hash, balance, bonded_amount }

/-- Genesis adapter `From<AccountsConfig> for Vec<GenesisAccount>`: one
record per account, built from the account's public key, the hash derived
from that key, the balance and the bonded amount, in input order. -/
def accountsConfigToGenesisAccounts (accounts_config : AccountsConfig) :
    List GenesisAccount :=
  accounts_config.accounts.map fun account =>
    GenesisAccount.new account.public_key
      (PublicKey.to_account_hash account.public_key)
      account.balance account.bonded_amount

/-- Concrete byte used as a decoding suffix in the concrete instances. -/
def exByte : Byte := ⟨7, by norm_num⟩

/-- Concrete public key (32 bytes of value 1). -/
def examplePublicKey : PublicKey := ⟨List.replicate 32 ⟨1, by norm_num⟩, by simp⟩

/-- Concrete public key (32 bytes of value 2). -/
def examplePublicKey2 : PublicKey := ⟨List.replicate 32 ⟨2, by norm_num⟩, by simp⟩

/-- Concrete nonzero amount. -/
def exampleMotes : Motes := ⟨⟨5, by norm_num⟩⟩

/-- Concrete zero amount. -/
def exampleMotesZero : Motes := ⟨⟨0, by norm_num⟩⟩

/-- Concrete account with nonzero bonded amount. -/
def exampleAccountConfig : AccountConfig :=
  AccountConfig.new examplePublicKey exampleMotes exampleMotes

/-- Concrete account with zero bonded amount. -/
def exampleZeroBondAccount : AccountConfig :=
  AccountConfig.new examplePublicKey exampleMotes exampleMotesZero

/-- Concrete delegation entry. -/
def exampleDelegatorConfig : DelegatorConfig :=
  DelegatorConfig.new examplePublicKey examplePublicKey2 exampleMotes exampleMotes

/-- Concrete aggregate configuration. -/
def exampleAccountsConfig : AccountsConfig :=
  AccountsConfig.new [exampleAccountConfig] [exampleDelegatorConfig]

/-- Concrete directory root holding no file at all. -/
def exampleEmptyDir : SourceDir := ⟨fun _ => none⟩

/-- Concrete well-formed source document whose delegators section is omitted. -/
def exampleTomlDoc : AccountsToml := ⟨[exampleAccountConfig], none⟩

/-- C1: decoding the bytes produced by encoding a legal `AccountConfig`,
`DelegatorConfig` or `AccountsConfig` value yields the value back with an
empty remainder, and for every suffix `r`, decoding `encode v ++ r` yields
`(v, r)` — decode consumes only its own data. For the aggregate, legality
includes both sequence lengths fitting the fixed-width length field. -/
theorem c1_decode_encode_roundtrip :
    (∀ (v : AccountConfig) (r : List Byte),
        AccountConfig.from_bytes (AccountConfig.to_bytes v ++ r) = some (v, r)) ∧
    (∀ v : AccountConfig,
        AccountConfig.from_bytes (AccountConfig.to_bytes v) = some (v, [])) ∧
    (∀ (v : DelegatorConfig) (r : List Byte),
        DelegatorConfig.from_bytes (DelegatorConfig.to_bytes v ++ r) = some (v, r)) ∧
    (∀ v : DelegatorConfig,
        DelegatorConfig.from_bytes (DelegatorConfig.to_bytes v) = some (v, [])) ∧
    (∀ (v : AccountsConfig) (r : List Byte),
        v.accounts.length < 256 ^ 4 → v.delegators.length < 256 ^ 4 →
        AccountsConfig.from_bytes (AccountsConfig.to_bytes v ++ r) = some (v, r)) ∧
    (∀ v : AccountsConfig,
        v.accounts.length < 256 ^ 4 → v.delegators.length < 256 ^ 4 →
        AccountsConfig.from_bytes (AccountsConfig.to_bytes v) = some (v, [])) := by
  refine ⟨accountConfig_roundtrip, ?_, delegatorConfig_roundtrip,
    ?_, accountsConfig_roundtrip, ?_⟩
  · intro v
    have h := accountConfig_roundtrip v []
    rwa [List.append_nil] at h
  · intro v
    have h := delegatorConfig_roundtrip v []
    rwa [List.append_nil] at h
  · intro v ha hd
    have h := accountsConfig_roundtrip v [] ha hd
    rwa [List.append_nil] at h

theorem c1_decode_encode_roundtrip_witness :
    AccountsConfig.from_bytes (AccountsConfig.to_bytes exampleAccountsConfig ++ [exByte])
      = some (exampleAccountsConfig, [exByte]) :=
  c1_decode_encode_roundtrip.2.2.2.2.1 exampleAccountsConfig [exByte]
    (by decide) (by decide)

/-- C2: each composite encodes as the concatenation of its fields' encodings
in declared field order (`AccountConfig`: public key, balance, bonded amount;
`DelegatorConfig`: validator key, delegator key, balance, delegated amount;
`AccountsConfig`: accounts sequence, then delegators sequence), and each
decode reads the same fields in the same order, threading the remainder
forward. -/
theorem c2_field_order_composition :
    (∀ c : AccountConfig, AccountConfig.to_bytes c
        = PublicKey.to_bytes c.public_key
          ++ (Motes.to_bytes c.balance ++ Motes.to_bytes c.bonded_amount)) ∧
    (∀ d : DelegatorConfig, DelegatorConfig.to_bytes d
        = PublicKey.to_bytes d.validator_public_key
          ++ (PublicKey.to_bytes d.delegator_public_key
            ++ (Motes.to_bytes d.balance ++ Motes.to_bytes d.delegated_amount))) ∧
    (∀ c : AccountsConfig, AccountsConfig.to_bytes c
        = seqToBytes AccountConfig.to_bytes c.accounts
          ++ seqToBytes DelegatorConfig.to_bytes c.delegators) ∧
    (∀ (bs r1 r2 r3 : List Byte) (pk : PublicKey) (b ba : Motes),
        PublicKey.from_bytes bs = some (pk, r1) →
        Motes.from_bytes r1 = some (b, r2) →
        Motes.from_bytes r2 = some (ba, r3) →
        AccountConfig.from_bytes bs = some (AccountConfig.new pk b ba, r3)) ∧
    (∀ (bs r1 r2 r3 r4 : List Byte) (vpk dpk : PublicKey) (b da : Motes),
        PublicKey.from_bytes bs = some (vpk, r1) →
        PublicKey.from_bytes r1 = some (dpk, r2) →
        Motes.from_bytes r2 = some (b, r3) →
        Motes.from_bytes r3 = some (da, r4) →
        DelegatorConfig.from_bytes bs = some (DelegatorConfig.new vpk dpk b da, r4)) ∧
    (∀ (bs r1 r2 : List Byte) (accounts : List AccountConfig)
        (delegators : List DelegatorConfig),
        seqFromBytes AccountConfig.from_bytes bs = some (accounts, r1) →
        seqFromBytes DelegatorConfig.from_bytes r1 = some (delegators, r2) →
        AccountsConfig.from_bytes bs
          = some (AccountsConfig.new accounts delegators, r2)) := by
  refine ⟨?_, ?_, ?_, ?_, ?_, ?_⟩
  · intro c; simp [AccountConfig.to_bytes, List.append_assoc]
  · intro d; simp [DelegatorConfig.to_bytes, List.append_assoc]
  · intro c; simp [AccountsConfig.to_bytes]
  · intro bs r1 r2 r3 pk b ba h1 h2 h3
    simp only [AccountConfig.from_bytes, h1, h2, h3]
    rfl
  · intro bs r1 r2 r3 r4 vpk dpk b da h1 h2 h3 h4
    simp only [DelegatorConfig.from_bytes, h1, h2, h3, h4]
    rfl
  · intro bs r1 r2 accounts delegators h1 h2
    simp only [AccountsConfig.from_bytes, h1, h2]

theorem c2_field_order_composition_witness :
    AccountConfig.from_bytes
        (PublicKey.to_bytes examplePublicKey
          ++ (Motes.to_bytes exampleMotes ++ Motes.to_bytes exampleMotes))
      = some (AccountConfig.new examplePublicKey exampleMotes exampleMotes, []) :=
  c2_field_order_composition.2.2.2.1
    (PublicKey.to_bytes examplePublicKey
      ++ (Motes.to_bytes exampleMotes ++ Motes.to_bytes exampleMotes))
    (Motes.to_bytes exampleMotes ++ Motes.to_bytes exampleMotes)
    (Motes.to_bytes exampleMotes) []
    examplePublicKey exampleMotes exampleMotes
    (by decide) (by decide) (by decide)

theorem accountConfig_length_eq_serialized (c : AccountConfig) :
    (AccountConfig.to_bytes c).length = AccountConfig.serialized_length c := by
  rw [accountConfig_to_bytes_length]
  simp [AccountConfig.serialized_length, PublicKey.serialized_length,
    Motes.serialized_length]

theorem delegatorConfig_length_eq_serialized (d : DelegatorConfig) :
    (DelegatorConfig.to_bytes d).length = DelegatorConfig.serialized_length d := by
  rw [delegatorConfig_to_bytes_length]
  simp [DelegatorConfig.serialized_length, PublicKey.serialized_length,
    Motes.serialized_length]

theorem accountsConfig_length_eq_serialized (c : AccountsConfig) :
    (AccountsConfig.to_bytes c).length = AccountsConfig.serialized_length c := by
  simp [AccountsConfig.to_bytes, AccountsConfig.serialized_length,
    seqToBytes_length AccountConfig.to_bytes AccountConfig.serialized_length
      accountConfig_length_eq_serialized,
    seqToBytes_length DelegatorConfig.to_bytes DelegatorConfig.serialized_length
      delegatorConfig_length_eq_serialized]

/-- C3: for every value of the three entity types, the byte length of the
encoding equals the declared `serialized_length`. -/
theorem c3_length_consistency :
    (∀ v : AccountConfig,
        (AccountConfig.to_bytes v).length = AccountConfig.serialized_length v) ∧
    (∀ v : DelegatorConfig,
        (DelegatorConfig.to_bytes v).length = DelegatorConfig.serialized_length v) ∧
    (∀ v : AccountsConfig,
        (AccountsConfig.to_bytes v).length = AccountsConfig.serialized_length v) :=
  ⟨accountConfig_length_eq_serialized,
    delegatorConfig_length_eq_serialized,
    accountsConfig_length_eq_serialized⟩

/-- C4: decoding any strict truncation (at the end) of a valid
`AccountConfig` encoding fails; it never yields a successfully decoded
value. -/
theorem c4_truncated_decode_fails :
    ∀ (v : AccountConfig) (k : Nat), k < (AccountConfig.to_bytes v).length →
      AccountConfig.from_bytes ((AccountConfig.to_bytes v).take k) = none := by
  intro v k hk
  cases hfb : AccountConfig.from_bytes ((AccountConfig.to_bytes v).take k) with
  | none => rfl
  | some p =>
    obtain ⟨c, r⟩ := p
    have hlen := accountConfig_from_bytes_some_length _ c r hfb
    have h48 := accountConfig_to_bytes_length v
    rw [h48] at hk
    rw [List.length_take, h48, Nat.min_eq_left (Nat.le_of_lt hk)] at hlen
    omega

theorem c4_truncated_decode_fails_witness :
    AccountConfig.from_bytes ((AccountConfig.to_bytes exampleAccountConfig).take 47)
      = none :=
  c4_truncated_decode_fails exampleAccountConfig 47 (by decide)

/-- C5: encoding is total over legal values — each value has its byte string
— and injective: no two distinct values of the same type encode identically
(for the aggregate, among values whose sequence lengths fit the fixed-width
length field). -/
theorem c5_encode_total_unique :
    (∀ v : AccountConfig, ∃ bs : List Byte, AccountConfig.to_bytes v = bs) ∧
    (∀ a b : AccountConfig,
        AccountConfig.to_bytes a = AccountConfig.to_bytes b → a = b) ∧
    (∀ v : DelegatorConfig, ∃ bs : List Byte, DelegatorConfig.to_bytes v = bs) ∧
    (∀ a b : DelegatorConfig,
        DelegatorConfig.to_bytes a = DelegatorConfig.to_bytes b → a = b) ∧
    (∀ v : AccountsConfig, ∃ bs : List Byte, AccountsConfig.to_bytes v = bs) ∧
    (∀ a b : AccountsConfig,
        a.accounts.length < 256 ^ 4 → a.delegators.length < 256 ^ 4 →
        b.accounts.length < 256 ^ 4 → b.delegators.length < 256 ^ 4 →
        AccountsConfig.to_bytes a = AccountsConfig.to_bytes b → a = b) := by
  refine ⟨fun v => ⟨_, rfl⟩, ?_, fun v => ⟨_, rfl⟩, ?_, fun v => ⟨_, rfl⟩, ?_⟩
  · intro a b h
    have ha := accountConfig_roundtrip a []
    have hb := accountConfig_roundtrip b []
    rw [h] at ha
    have := Option.some.inj (ha.symm.trans hb)
    exact congrArg Prod.fst this
  · intro a b h
    have ha := delegatorConfig_roundtrip a []
    have hb := delegatorConfig_roundtrip b []
    rw [h] at ha
    have := Option.some.inj (ha.symm.trans hb)
    exact congrArg Prod.fst this
  · intro a b ha1 ha2 hb1 hb2 h
    have ha := accountsConfig_roundtrip a [] ha1 ha2
    have hb := accountsConfig_roundtrip b [] hb1 hb2
    rw [h] at ha
    have := Option.some.inj (ha.symm.trans hb)
    exact congrArg Prod.fst this

theorem c5_encode_total_unique_witness :
    exampleAccountsConfig = exampleAccountsConfig :=
  c5_encode_total_unique.2.2.2.2.2 exampleAccountsConfig exampleAccountsConfig
    (by decide) (by decide) (by decide) (by decide) rfl

/-- C6: loading from a directory root that does not contain the accounts
file succeeds and returns the configuration with zero accounts and zero
delegators. -/
theorem c6_absent_source_yields_empty :
    ∀ root : SourceDir, root.file CHAINSPEC_ACCOUNTS_FILENAME = none →
      AccountsConfig.from_path root = Except.ok (AccountsConfig.new [] []) ∧
      (AccountsConfig.new [] []).accounts.length = 0 ∧
      (AccountsConfig.new [] []).delegators.length = 0 := by
  intro root h
  refine ⟨?_, rfl, rfl⟩
  rw [AccountsConfig.from_path, h]

theorem c6_absent_source_yields_empty_witness :
    AccountsConfig.from_path exampleEmptyDir
      = Except.ok (AccountsConfig.new [] []) :=
  (c6_absent_source_yields_empty exampleEmptyDir rfl).1

/-- C7: the genesis adapter is total, produces exactly one record per input
account in input order — record `i` carrying account `i`'s public key,
balance, bonded amount, and the hash derived solely from its public key —
and the delegators contribute nothing to the output. -/
theorem c7_genesis_adapter_shape :
    (∀ cfg : AccountsConfig,
        (accountsConfigToGenesisAccounts cfg).length = cfg.accounts.length) ∧
    (∀ (cfg : AccountsConfig) (i : Nat),
        (accountsConfigToGenesisAccounts cfg)[i]?
          = cfg.accounts[i]?.map fun a =>
              GenesisAccount.new a.public_key
                (PublicKey.to_account_hash a.public_key) a.balance
                a.bonded_amount) ∧
    (∀ (accounts : List AccountConfig) (d1 d2 : List DelegatorConfig),
        accountsConfigToGenesisAccounts (AccountsConfig.new accounts d1)
          = accountsConfigToGenesisAccounts (AccountsConfig.new accounts d2)) := by
  refine ⟨?_, ?_, ?_⟩
  · intro cfg
    simp [accountsConfigToGenesisAccounts]
  · intro cfg i
    simp [accountsConfigToGenesisAccounts]
  · intro accounts d1 d2
    rfl

/-- C8: `is_genesis_validator` is true exactly when the bonded amount is
nonzero, and in particular false when it is zero. -/
theorem c8_is_genesis_validator_iff :
    ∀ a : AccountConfig,
      (AccountConfig.is_genesis_validator a = true
          ↔ 0 < a.bonded_amount.value.val) ∧
      (a.bonded_amount.value.val = 0 →
          AccountConfig.is_genesis_validator a = false) := by
  intro a
  constructor
  · simp [AccountConfig.is_genesis_validator, Motes.is_zero, Nat.pos_iff_ne_zero]
  · intro h
    simp [AccountConfig.is_genesis_validator, Motes.is_zero, h]

theorem c8_is_genesis_validator_iff_witness :
    AccountConfig.is_genesis_validator exampleZeroBondAccount = false ∧
    AccountConfig.is_genesis_validator exampleAccountConfig = true :=
  ⟨(c8_is_genesis_validator_iff exampleZeroBondAccount).2 (by decide),
    (c8_is_genesis_validator_iff exampleAccountConfig).1.mpr (by decide)⟩

/-- C9: parsing a well-formed source document that omits the delegators
section yields an `AccountsConfig` with an empty delegators sequence and
exactly the document's accounts. -/
theorem c9_omitted_delegators_default :
    ∀ doc : AccountsToml, doc.delegators = none →
      (parseAccountsToml doc).delegators = [] ∧
      (parseAccountsToml doc).accounts = doc.accounts := by
  intro doc h
  simp [parseAccountsToml, h]

theorem c9_omitted_delegators_default_witness :
    (parseAccountsToml exampleTomlDoc).delegators = [] ∧
    (parseAccountsToml exampleTomlDoc).accounts = exampleTomlDoc.accounts :=
  c9_omitted_delegators_default exampleTomlDoc rfl

/-- C10: the constructors store their arguments verbatim and the accessors
return exactly what was stored, for every input — in particular without
normalization, deduplication, reordering or rejection of duplicate keys or
zero amounts, since the stored sequences are the given ones unchanged. -/
theorem c10_construction_verbatim :
    (∀ (pk : PublicKey) (b ba : Motes),
        (AccountConfig.new pk b ba).public_key = pk ∧
        (AccountConfig.new pk b ba).balance = b ∧
        (AccountConfig.new pk b ba).bonded_amount = ba) ∧
    (∀ (vpk dpk : PublicKey) (b da : Motes),
        (DelegatorConfig.new vpk dpk b da).validator_public_key = vpk ∧
        (DelegatorConfig.new vpk dpk b da).delegator_public_key = dpk ∧
        (DelegatorConfig.new vpk dpk b da).balance = b ∧
        (DelegatorConfig.new vpk dpk b da).delegated_amount = da) ∧
    (∀ (accounts : List AccountConfig) (delegators : List DelegatorConfig),
        (AccountsConfig.new accounts delegators).accounts = accounts ∧
        (AccountsConfig.new accounts delegators).delegators = delegators) :=
  ⟨fun _ _ _ => ⟨rfl, rfl, rfl⟩, fun _ _ _ _ => ⟨rfl, rfl, rfl, rfl⟩,
    fun _ _ => ⟨rfl, rfl⟩⟩
